import Mathlib

/-!
Shallow embedding of `dataset-gen/decompiler/typeinfo.py`: the `TypeLib`
catalog, the `TypeInfo` node hierarchy, the normalizer `TypeLib.add`, and
the JSON codec `TypeInfoCodec.encode` / `TypeInfoCodec.decode`.

Conventions of the embedding:
* All byte sizes are Lean `Int` (Python integers are unbounded and the
  struct-padding computation can go negative).
* A `TypeLib` is an insertion-ordered association list with unique keys,
  mirroring a Python `dict`; the catalog a node belongs to is recorded on
  the node as a numeric identity token `lib : Nat`, mirroring Python's
  identity-based comparison of `TypeLib` objects (the class defines no
  `__eq__`, so `self.lib == other.lib` is object identity).
* The external IDA handle `tinfo_t` is modelled as its canonical string
  `dstr()` (the signature), resolved through a finite `Provider` table
  mapping each signature to the shape the IDA predicates would report.
-/

namespace DireTypeInfo

/-- A TypeInfo node.  One constructor per Python class: `TypeInfo` itself
(`typeInfo`, discriminant 0), `Array` (1), `Pointer` (2), `UDT.Field` (3),
`UDT.Padding` (4), `Struct` (5), `Union` (6), `Void` (7).  Each variant
stores exactly the instance attributes its `__init__` assigns, except
attributes that are always derived the same way (`Pointer.size = 8`,
`Pointer.name = target + " *"`, `Void.size = 0`), which are recovered by
the projections below.  `Padding` and `Void` store no `lib`: their
`__init__` never assigns one. -/
inductive TInfo where
  | typeInfo (lib : Nat) (name : Option String) (tsize : Int)
  | array (lib : Nat) (baseTypeName : String) (nelements : Int) (tsize : Int)
  | pointer (lib : Nat) (targetTypeName : String)
  | field (lib : Nat) (name : String) (typeName : String) (tsize : Int)
  | padding (tsize : Int)
  | struct (lib : Nat) (name : Option String) (layout : List TInfo) (tsize : Int)
  | union (lib : Nat) (name : Option String) (members : List TInfo)
      (pad : Option TInfo) (tsize : Int)
  | void

/-- The `size` attribute of a node (`Pointer.WIDTH = 8`; `Void.size = 0`). -/
def TInfo.size : TInfo → Int
  | .typeInfo _ _ s => s
  | .array _ _ _ s => s
  | .pointer _ _ => 8
  | .field _ _ _ s => s
  | .padding s => s
  | .struct _ _ _ s => s
  | .union _ _ _ _ s => s
  | .void => 0

/-- The `lib` attribute where the Python class assigns one
(`UDT.Padding` and `Void` have none). -/
def TInfo.libOf : TInfo → Option Nat
  | .typeInfo l _ _ => some l
  | .array l _ _ _ => some l
  | .pointer l _ => some l
  | .field l _ _ _ => some l
  | .padding _ => none
  | .struct l _ _ _ => some l
  | .union l _ _ _ _ => some l
  | .void => none

/-- Model of `TypeLib._data`: a name-keyed, insertion-ordered mapping. -/
abbrev TypeLib := List (String × TInfo)

/-- Model of `TypeLib.__contains__`: `key in self._data`. -/
def containsKey (lib : TypeLib) (key : String) : Bool :=
  lib.any (fun e => e.1 == key)

/-- Model of `TypeLib.__getitem__`: `self._data[key]`; `none` models the `KeyError`
(NotFound) raised on an absent key. -/
def getItem (lib : TypeLib) (key : String) : Option TInfo :=
  (lib.find? (fun e => e.1 == key)).map (fun e => e.2)

/-- Model of `TypeLib.__setitem__`: insert only if the key is not already present
(first write wins; an existing entry is never overwritten). -/
def setItem (lib : TypeLib) (key : String) (item : TInfo) : TypeLib :=
  if containsKey lib key then lib else lib ++ [(key, item)]

/-- Errors surfaced by the embedded operations: `notFound` is the Python
`KeyError` from a catalog lookup; `providerMissing` marks a signature the
provider table cannot resolve (impossible for a real `tinfo_t` handle);
`outOfFuel` marks exhaustion of the explicit recursion bound. -/
inductive AddErr where
  | notFound
  | providerMissing
  | outOfFuel

/-- Model of `TypeInfo.__init__`: record the attributes and register the node under
its name when the name is not `None`.  `L` is the identity of `lib`
(the `self` catalog passed to the constructor). -/
def mkTypeInfo (lib : TypeLib) (L : Nat) (name : Option String) (tsize : Int) :
    TInfo × TypeLib :=
  let node := TInfo.typeInfo L name tsize
  match name with
  | some n => (node, setItem lib n node)
  | none => (node, lib)

/-- Model of `Pointer.__init__`: size is the fixed width 8, the node is registered
under `str(self)`, i.e. the target's signature followed by `" *"`. -/
def mkPointer (lib : TypeLib) (L : Nat) (target : String) : TInfo × TypeLib :=
  let node := TInfo.pointer L target
  (node, setItem lib (target ++ " *") node)

/-- Model of `Array.__init__`: the size is `lib[base_type_name].size * nelements`
(a `KeyError` if the base type is not in the catalog), and the node is
registered under `str(self)`, i.e. `base[count]`. -/
def mkArray (lib : TypeLib) (L : Nat) (base : String) (nelements : Int) :
    Except AddErr (TInfo × TypeLib) :=
  match getItem lib base with
  | none => .error .notFound
  | some b =>
    let node := TInfo.array L base nelements (b.size * nelements)
    .ok (node, setItem lib (base ++ "[" ++ toString nelements ++ "]") node)

/-- Model of `UDT.Field.__init__`: the size is `lib[type_name].size` (a `KeyError`
if the referenced type is not in the catalog); a Field is never registered
in the catalog. -/
def mkField (lib : TypeLib) (L : Nat) (name : String) (typeName : String) :
    Except AddErr TInfo :=
  match getItem lib typeName with
  | none => .error .notFound
  | some b => .ok (TInfo.field L name typeName b.size)

/-- Model of `Struct.__init__`: size is the running sum of the layout entries'
sizes; the node is registered only when it carries a name. -/
def mkStruct (lib : TypeLib) (L : Nat) (name : Option String)
    (layout : List TInfo) : TInfo × TypeLib :=
  let tsize := layout.foldl (fun a e => a + e.size) 0
  let node := TInfo.struct L name layout tsize
  match name with
  | some n => (node, setItem lib n node)
  | none => (node, lib)

/-- Model of `Union.__init__`: size is `max(m.size for m in members)` — Python's
`max` of the member sizes, 0 on the empty list — plus the padding's size
when a padding is supplied; the node is registered only when named. -/
def mkUnion (lib : TypeLib) (L : Nat) (name : Option String)
    (members : List TInfo) (pad : Option TInfo) : TInfo × TypeLib :=
  let base : Int :=
    match members with
    | [] => 0
    | m :: rest => rest.foldl (fun a e => max a e.size) m.size
  let tsize := base + (match pad with | some p => p.size | none => 0)
  let node := TInfo.union L name members pad tsize
  match name with
  | some n => (node, setItem lib n node)
  | none => (node, lib)

/-- One struct/union member as reported by `ida_typeinf.udt_member_t`:
its name, bit offset, bit size, and the `dstr()` signature of its type. -/
structure Member where
  mname : String
  moffset : Nat
  mbits : Nat
  msig : String

/-- The shape of a native type as reported by the IDA predicates consumed
by `TypeLib.add`: `is_void`, `is_ptr` (with the pointee's signature),
`is_array` (element signature and count), `is_udt` split into struct
(members with bit offsets/sizes) and union (member names and signatures),
and the fallthrough primitive case carrying `get_size()`. -/
inductive Shape where
  | voidS
  | ptrS (pointee : String)
  | arrS (elem : String) (nelems : Int)
  | structS (members : List Member)
  | unionS (members : List (String × String))
  | primS (psize : Int)

/-- The external type-introspection provider: a finite table resolving a
type signature (`tinfo_t.dstr()`) to the shape of that type. -/
abbrev Provider := List (String × Shape)

def lookupShape (p : Provider) (sig : String) : Option Shape :=
  (p.find? (fun e => e.1 == sig)).map (fun e => e.2)

/-- The struct branch of `TypeLib.add`: iterate the members in order,
tracking `next_offset` in bits; when a member's bit offset differs from
the expected offset, append a Padding of `(offset - next_offset) // 8`
bytes (Python floor division); then recursively normalize the member's
type (`recur`) and append a Field referencing it by name. -/
def structLoop (L : Nat)
    (recur : String → TypeLib → List String → Except AddErr (TypeLib × List String)) :
    List Member → Nat → List TInfo → TypeLib → List String →
    Except AddErr (List TInfo × TypeLib × List String)
  | [], _, acc, lib, wl => .ok (acc, lib, wl)
  | m :: rest, nextOffset, acc, lib, wl =>
    let acc := if m.moffset ≠ nextOffset then
        acc ++ [TInfo.padding (((m.moffset : Int) - (nextOffset : Int)).fdiv 8)]
      else acc
    match recur m.msig lib wl with
    | .error e => .error e
    | .ok (lib, wl) =>
      match mkField lib L m.mname m.msig with
      | .error e => .error e
      | .ok fld => structLoop L recur rest (m.moffset + m.mbits) (acc ++ [fld]) lib wl

/-- The union branch of `TypeLib.add`: recursively normalize each member's
type, then collect a Field for it (padding is never computed here). -/
def unionLoop (L : Nat)
    (recur : String → TypeLib → List String → Except AddErr (TypeLib × List String)) :
    List (String × String) → List TInfo → TypeLib → List String →
    Except AddErr (List TInfo × TypeLib × List String)
  | [], acc, lib, wl => .ok (acc, lib, wl)
  | (nm, sig) :: rest, acc, lib, wl =>
    match recur sig lib wl with
    | .error e => .error e
    | .ok (lib, wl) =>
      match mkField lib L nm sig with
      | .error e => .error e
      | .ok fld => unionLoop L recur rest (acc ++ [fld]) lib wl

/-- One unfolding of `TypeLib.add`, with the recursive call abstracted as
`recur`.  Mirrors the body line by line: return if the signature is
already in the worklist or the type is void; otherwise mark it visited
and dispatch.  A pointer registers the Pointer node *before* recursing
into the pointee; an array recurses into the element first and then
registers the Array node; struct/union run their member loops and then
register the named node; anything else registers a Primitive. -/
def addF (p : Provider) (L : Nat)
    (recur : String → TypeLib → List String → Except AddErr (TypeLib × List String))
    (sig : String) (lib : TypeLib) (wl : List String) :
    Except AddErr (TypeLib × List String) :=
  if sig ∈ wl then .ok (lib, wl)
  else
    match lookupShape p sig with
    | none => .error .providerMissing
    | some .voidS => .ok (lib, wl)
    | some (.ptrS pointee) =>
      let wl := sig :: wl
      let (_, lib) := mkPointer lib L pointee
      recur pointee lib wl
    | some (.arrS elem n) =>
      let wl := sig :: wl
      match recur elem lib wl with
      | .error e => .error e
      | .ok (lib, wl) =>
        match mkArray lib L elem n with
        | .error e => .error e
        | .ok (_, lib) => .ok (lib, wl)
    | some (.structS ms) =>
      let wl := sig :: wl
      match structLoop L recur ms 0 [] lib wl with
      | .error e => .error e
      | .ok (layout, lib, wl) =>
        let (_, lib) := mkStruct lib L (some sig) layout
        .ok (lib, wl)
    | some (.unionS ms) =>
      let wl := sig :: wl
      match unionLoop L recur ms [] lib wl with
      | .error e => .error e
      | .ok (members, lib, wl) =>
        let (_, lib) := mkUnion lib L (some sig) members none
        .ok (lib, wl)
    | some (.primS s) =>
      let wl := sig :: wl
      let (_, lib) := mkTypeInfo lib L (some sig) s
      .ok (lib, wl)

/-- Model of `TypeLib.add` with an explicit recursion bound (the Python recursion
is bounded by the visited set; the stability theorem below shows the
result is independent of `fuel` once `fuel` exceeds the number of
unvisited provider signatures).  Defined through `Nat.rec` so that it
evaluates by kernel reduction. -/
def add (p : Provider) (L : Nat) (fuel : Nat) :
    String → TypeLib → List String → Except AddErr (TypeLib × List String) :=
  Nat.rec
    (motive := fun _ => String → TypeLib → List String →
      Except AddErr (TypeLib × List String))
    (fun _ _ _ => .error .outOfFuel)
    (fun _ ih => addF p L ih)
    fuel

/-- Model of `TypeLib.add` called with `worklist=None`, i.e. a fresh empty set. -/
def addRoot (p : Provider) (L : Nat) (fuel : Nat) (sig : String) (lib : TypeLib) :
    Except AddErr (TypeLib × List String) :=
  add p L fuel sig lib []

/-- A JSON value, modelling the tree `json.dumps` serializes /
`json.loads` parses (the encoded string is modelled at tree level). -/
inductive JVal where
  | null
  | jstr (s : String)
  | jnum (n : Int)
  | jarr (xs : List JVal)
  | jobj (fields : List (String × JVal))

def optStr : Option String → JVal
  | some s => .jstr s
  | none => .null

mutual

/-- Model of `_to_json` of each class, composed over nested members by the
`_TypeEncoder` (which serializes any object carrying `_to_json`, and
`None` as `null`).  Field keys and discriminants are exactly those of the
source: sizes of Array/Field/Struct/Union are not written. -/
def toJson : TInfo → JVal
  | .typeInfo _ n s => .jobj [("T", .jnum 0), ("n", optStr n), ("s", .jnum s)]
  | .array _ b n _ => .jobj [("T", .jnum 1), ("b", .jstr b), ("n", .jnum n)]
  | .pointer _ t => .jobj [("T", .jnum 2), ("t", .jstr t)]
  | .field _ n t _ => .jobj [("T", .jnum 3), ("n", .jstr n), ("t", .jstr t)]
  | .padding s => .jobj [("T", .jnum 4), ("s", .jnum s)]
  | .struct _ n lay _ =>
    .jobj [("T", .jnum 5), ("n", optStr n), ("l", .jarr (toJsonList lay))]
  | .union _ n ms p _ =>
    .jobj [("T", .jnum 6), ("n", optStr n), ("m", .jarr (toJsonList ms)),
      ("p", toJsonOpt p)]
  | .void => .jobj [("T", .jnum 7)]

def toJsonList : List TInfo → List JVal
  | [] => []
  | x :: xs => toJson x :: toJsonList xs

def toJsonOpt : Option TInfo → JVal
  | some pd => toJson pd
  | none => .null

end

/-- Decode errors: `typeError` is the `TypeError` raised when
`as_typeinfo` calls a three-argument classmethod `_from_json(cls, lib, d)`
with only the dictionary (the source's `_from_json(d)` passes `d` as
`lib` and supplies no `d`); `malformed` is the `KeyError` from a missing
`"T"`/`"s"` key or an unrecognized discriminant. -/
inductive DecErr where
  | typeError
  | malformed

/-- A JSON value after `loads` with `object_hook=as_typeinfo`: every
object has been replaced by the node the hook produced. -/
inductive DVal where
  | null
  | dstr (s : String)
  | dnum (n : Int)
  | darr (xs : List DVal)
  | node (t : TInfo)

def dictGet (d : List (String × DVal)) (k : String) : Option DVal :=
  (d.find? (fun e => e.1 == k)).map (fun e => e.2)

/-- Model of `as_typeinfo`: dispatch `d["T"]` through the discriminant table and
call the class's `_from_json(d)`.  Only `UDT.Padding` (4) and `Void` (7)
declare `_from_json(cls, d)`; the other six classes declare
`_from_json(cls, lib, d)`, so the one-argument call raises `TypeError`.
A missing `"T"` or a discriminant outside 0–7 raises `KeyError`
(`malformed`); a non-integer `"s"` for Padding is outside this model's
integer-sized nodes and is also mapped to `malformed`. -/
def asTypeinfo (d : List (String × DVal)) : Except DecErr DVal :=
  match dictGet d "T" with
  | some (.dnum 4) =>
    (match dictGet d "s" with
     | some (.dnum s) => .ok (.node (.padding s))
     | _ => .error .malformed)
  | some (.dnum 7) => .ok (.node .void)
  | some (.dnum t) =>
    if t = 0 ∨ t = 1 ∨ t = 2 ∨ t = 3 ∨ t = 5 ∨ t = 6 then .error .typeError
    else .error .malformed
  | _ => .error .malformed

mutual

/-- Model of `TypeInfoCodec.decode`: `loads(encoded, object_hook=as_typeinfo)` —
the hook is applied to every JSON object, innermost first.  Note the
source's `decode` takes only the encoded string: no catalog parameter
exists, and nothing is ever written into a catalog. -/
def decodeVal : JVal → Except DecErr DVal
  | .null => .ok .null
  | .jstr s => .ok (.dstr s)
  | .jnum n => .ok (.dnum n)
  | .jarr xs =>
    match decodeList xs with
    | .error e => .error e
    | .ok ds => .ok (.darr ds)
  | .jobj fields =>
    match decodeFields fields with
    | .error e => .error e
    | .ok d => asTypeinfo d

def decodeList : List JVal → Except DecErr (List DVal)
  | [] => .ok []
  | x :: xs =>
    match decodeVal x with
    | .error e => .error e
    | .ok d =>
      match decodeList xs with
      | .error e => .error e
      | .ok ds => .ok (d :: ds)

def decodeFields : List (String × JVal) → Except DecErr (List (String × DVal))
  | [] => .ok []
  | (k, v) :: rest =>
    match decodeVal v with
    | .error e => .error e
    | .ok d =>
      match decodeFields rest with
      | .error e => .error e
      | .ok ds => .ok ((k, d) :: ds)

end

mutual

/-- Python `a == b` for two nodes, i.e. `type(a).__eq__(a, b)`.
`some r` is the boolean Python returns; `none` models the comparisons
that raise `AttributeError`: `TypeInfo.__eq__` against an `Array`
(which lacks a `name` attribute, reached only when the `lib`s are equal,
since `and` short-circuits) and against a `Void` (which lacks `lib`).
Every subclass checks `isinstance` of its own class first and otherwise
returns `False`; `TypeInfo.__eq__` accepts any `TypeInfo` subclass and
compares `lib`, `name`, `size` in that order, so it can compare a base
node against a Pointer/Struct/Union through their `name`/`size`
attributes (a Pointer's `name` is its target's signature + `" *"` and its
`size` is 8). -/
def beq : TInfo → TInfo → Option Bool
  | .typeInfo l1 n1 s1, b =>
    match b with
    | .typeInfo l2 n2 s2 => some (l1 == l2 && n1 == n2 && s1 == s2)
    | .array l2 _ _ _ => if l1 == l2 then none else some false
    | .pointer l2 t =>
      some (l1 == l2 &&
        (match n1 with | some x => x == t ++ " *" | none => false) && s1 == 8)
    | .field _ _ _ _ => some false
    | .padding _ => some false
    | .struct l2 n2 _ s2 => some (l1 == l2 && n1 == n2 && s1 == s2)
    | .union l2 n2 _ _ s2 => some (l1 == l2 && n1 == n2 && s1 == s2)
    | .void => none
  | .array l1 b1 c1 _, b =>
    match b with
    | .array l2 b2 c2 _ => some (l1 == l2 && c1 == c2 && b1 == b2)
    | _ => some false
  | .pointer l1 t1, b =>
    match b with
    | .pointer l2 t2 => some (l1 == l2 && t1 == t2)
    | _ => some false
  | .field l1 n1 t1 _, b =>
    match b with
    | .field l2 n2 t2 _ => some (l1 == l2 && n1 == n2 && t1 == t2)
    | _ => some false
  | .padding s1, b =>
    match b with
    | .padding s2 => some (s1 == s2)
    | _ => some false
  | .struct l1 n1 lay1 _, b =>
    match b with
    | .struct l2 n2 lay2 _ =>
      if l1 == l2 then
        if n1 == n2 then beqList lay1 lay2 else some false
      else some false
    | _ => some false
  | .union l1 n1 ms1 p1 _, b =>
    match b with
    | .union l2 n2 ms2 p2 _ =>
      if l1 == l2 then
        if n1 == n2 then
          match beqList ms1 ms2 with
          | some true => beqOpt p1 p2
          | r => r
        else some false
      else some false
    | _ => some false
  | .void, b =>
    match b with
    | .void => some true
    | _ => some false

/-- Python tuple equality over layouts/member lists: elementwise `==`
up to the shorter length, then length comparison; an exception in an
element comparison propagates. -/
def beqList : List TInfo → List TInfo → Option Bool
  | [], [] => some true
  | [], _ :: _ => some false
  | _ :: _, [] => some false
  | x :: xs, y :: ys =>
    match beq x y with
    | none => none
    | some false => some false
    | some true => beqList xs ys

/-- Python `self.padding == other.padding` for the optional Union
padding: `None == None` is `True`, `None` against a node is `False`
(each side's `__eq__`/`isinstance` check fails), nodes compare by `==`. -/
def beqOpt : Option TInfo → Option TInfo → Option Bool
  | none, none => some true
  | none, some _ => some false
  | some _, none => some false
  | some x, some y => beq x y

end

/-- The layout (for a Struct) or member list (for a Union) a node stores;
other variants store none. -/
def TInfo.layoutOf : TInfo → List TInfo
  | .struct _ _ lay _ => lay
  | .union _ _ ms _ _ => ms
  | _ => []

/-- Spec-side definition, from the spec's words on Union sizing: "size is
the max of member sizes (0 if no members)". -/
def specMaxSize (sizes : List Int) : Int :=
  (sizes.max?).getD 0

mutual

/-- Spec-side definition for claim C8: agreement of the semantic fields,
i.e. exactly the comparison each `__eq__` performs with the
catalog-identity conjunct (`self.lib == other.lib`) removed.  As in
`beq`, `none` marks the comparisons whose attribute accesses raise. -/
def semEq : TInfo → TInfo → Option Bool
  | .typeInfo _ n1 s1, b =>
    match b with
    | .typeInfo _ n2 s2 => some (n1 == n2 && s1 == s2)
    | .array _ _ _ _ => none
    | .pointer _ t =>
      some ((match n1 with | some x => x == t ++ " *" | none => false) && s1 == 8)
    | .field _ _ _ _ => some false
    | .padding _ => some false
    | .struct _ n2 _ s2 => some (n1 == n2 && s1 == s2)
    | .union _ n2 _ _ s2 => some (n1 == n2 && s1 == s2)
    | .void => none
  | .array _ b1 c1 _, b =>
    match b with
    | .array _ b2 c2 _ => some (c1 == c2 && b1 == b2)
    | _ => some false
  | .pointer _ t1, b =>
    match b with
    | .pointer _ t2 => some (t1 == t2)
    | _ => some false
  | .field _ n1 t1 _, b =>
    match b with
    | .field _ n2 t2 _ => some (n1 == n2 && t1 == t2)
    | _ => some false
  | .padding s1, b =>
    match b with
    | .padding s2 => some (s1 == s2)
    | _ => some false
  | .struct _ n1 lay1 _, b =>
    match b with
    | .struct _ n2 lay2 _ =>
      if n1 == n2 then semEqList lay1 lay2 else some false
    | _ => some false
  | .union _ n1 ms1 p1 _, b =>
    match b with
    | .union _ n2 ms2 p2 _ =>
      if n1 == n2 then
        match semEqList ms1 ms2 with
        | some true => semEqOpt p1 p2
        | r => r
      else some false
    | _ => some false
  | .void, b =>
    match b with
    | .void => some true
    | _ => some false

def semEqList : List TInfo → List TInfo → Option Bool
  | [], [] => some true
  | [], _ :: _ => some false
  | _ :: _, [] => some false
  | x :: xs, y :: ys =>
    match semEq x y with
    | none => none
    | some false => some false
    | some true => semEqList xs ys

def semEqOpt : Option TInfo → Option TInfo → Option Bool
  | none, none => some true
  | none, some _ => some false
  | some _, none => some false
  | some x, some y => semEq x y

end

/-- Provider for claim C4: `struct S { int x; /* 4 bytes of padding */
int y; }` — two 4-byte ints, the first at bit offset 0, the second at bit
offset 64. -/
def gapProvider : Provider :=
  [("S", .structS [⟨"x", 0, 32, "int"⟩, ⟨"y", 64, 32, "int"⟩]),
   ("int", .primS 4)]

/-- Provider for claim C3: `struct S { struct S *next; }` — a struct
containing a pointer to itself. -/
def selfPtrProvider : Provider :=
  [("S", .structS [⟨"next", 0, 64, "S *"⟩]),
   ("S *", .ptrS "S")]

/-- Provider for claim C10: a struct whose two 4-byte int members both
report bit offset 0 (the second member's offset is behind the expected
next offset). -/
def overlapProvider : Provider :=
  [("S", .structS [⟨"x", 0, 32, "int"⟩, ⟨"y", 0, 32, "int"⟩]),
   ("int", .primS 4)]

/-- The set of signatures the provider can resolve. -/
def provSigs (p : Provider) : Finset String :=
  (p.map Prod.fst).toFinset

/-- The number of provider signatures not yet in the visited worklist:
the measure bounding the recursion depth of `add`. -/
def missing (p : Provider) (wl : List String) : Nat :=
  ((provSigs p).filter (fun s => s ∉ wl)).card

/-! ## Theorems -/

/-- C1: the round-trip property fails in the source.  `decode` passes only
the JSON dictionary to each class's `_from_json`, whose signature is
`_from_json(cls, lib, d)` for every variant except `UDT.Padding` and
`Void`, so decoding the encoding of a Primitive, Array, Pointer, Field,
Struct or Union node raises `TypeError`; only Padding and Void round-trip. -/
theorem C1_roundtrip_bug :
    decodeVal (toJson (TInfo.typeInfo 0 (some "int") 4)) = .error .typeError
  ∧ decodeVal (toJson (TInfo.array 0 "int" 10 40)) = .error .typeError
  ∧ decodeVal (toJson (TInfo.pointer 0 "int")) = .error .typeError
  ∧ decodeVal (toJson (TInfo.field 0 "f" "int" 4)) = .error .typeError
  ∧ decodeVal (toJson (TInfo.struct 0 (some "S") [TInfo.field 0 "f" "int" 4] 4))
      = .error .typeError
  ∧ decodeVal (toJson (TInfo.union 0 (some "U") [TInfo.field 0 "f" "int" 4] none 4))
      = .error .typeError
  ∧ decodeVal (toJson (TInfo.padding 4)) = .ok (.node (.padding 4))
  ∧ decodeVal (toJson TInfo.void) = .ok (.node .void) :=
  ⟨rfl, rfl, rfl, rfl, rfl, rfl, rfl, rfl⟩

/-- C2: the decode operation does not match the claim.  The source's
`decode(encoded)` accepts no catalog argument at all, and dispatching on
discriminants 0–3, 5, 6 calls a three-argument `_from_json(cls, lib, d)`
with only `d`, raising `TypeError`; only discriminants 4 (Padding) and 7
(Void) reconstruct, and an unknown discriminant raises `KeyError`. -/
theorem C2_decode_bug :
    decodeVal (.jobj [("T", .jnum 0), ("n", .jstr "int"), ("s", .jnum 4)])
      = .error .typeError
  ∧ decodeVal (.jobj [("T", .jnum 1), ("b", .jstr "int"), ("n", .jnum 10)])
      = .error .typeError
  ∧ decodeVal (.jobj [("T", .jnum 3), ("n", .jstr "x"), ("t", .jstr "int")])
      = .error .typeError
  ∧ decodeVal (.jobj [("T", .jnum 4), ("s", .jnum 2)]) = .ok (.node (.padding 2))
  ∧ decodeVal (.jobj [("T", .jnum 9)]) = .error .malformed :=
  ⟨rfl, rfl, rfl, rfl, rfl⟩

/-- C5 counterexample: over a catalog that already contains `"x"`,
`put("x", A); put("x", B)` leaves the pre-existing entry, not `A`. -/
theorem C5_counterexample :
    getItem (setItem (setItem [("x", TInfo.typeInfo 0 none 1)] "x"
        (TInfo.typeInfo 0 none 2)) "x" (TInfo.typeInfo 0 none 3)) "x"
      ≠ some (TInfo.typeInfo 0 none 2) := by
  intro h
  have h0 : some (TInfo.typeInfo 0 none 1) = some (TInfo.typeInfo 0 none 2) := h
  injection h0 with h1
  injection h1 with e1 e2 e3
  exact absurd e3 (by decide)

/-- C5 (amended): over a catalog in which `x` is not already present,
`put(x, A)` followed by `put(x, B)` leaves `get(x) = A` — the second
insertion under the now-present name is a no-op and never overwrites. -/
theorem C5_amended_first_write_wins : ∀ (lib : TypeLib) (x : String) (A B : TInfo),
    containsKey lib x = false →
    getItem (setItem (setItem lib x A) x B) x = some A := by
  intro lib x A B h
  have h1 : setItem lib x A = lib ++ [(x, A)] := by simp [setItem, h]
  have hc : containsKey (lib ++ [(x, A)]) x = true := by
    simp [containsKey]
  have h2 : setItem (lib ++ [(x, A)]) x B = lib ++ [(x, A)] := by
    simp [setItem, hc]
  rw [h1, h2]
  have hall : ∀ e ∈ lib, ¬ ((e.1 == x) = true) := by
    simpa [containsKey] using h
  have hn : lib.find? (fun e => e.1 == x) = none := List.find?_eq_none.mpr hall
  simp [getItem, hn, List.find?]

/-- Witness for the amended C5 at a concrete fresh catalog. -/
theorem C5_witness :
    getItem (setItem (setItem [] "x" TInfo.void) "x" (TInfo.padding 0)) "x"
      = some TInfo.void :=
  C5_amended_first_write_wins [] "x" TInfo.void (TInfo.padding 0) rfl

/-- C6: a Union node's size is the maximum of its members' sizes (0 when
there are no members) plus the optional trailing padding's size; in
particular members of sizes 4, 8, 2 with no padding give size 8. -/
theorem C6_union_size :
    (∀ (lib : TypeLib) (L : Nat) (nm : Option String)
      (ms : List TInfo) (pad : Option TInfo),
      (mkUnion lib L nm ms pad).1.size =
        specMaxSize (ms.map TInfo.size) +
          (match pad with | some p => p.size | none => 0))
  ∧ (mkUnion [] 0 none
      [TInfo.field 0 "a" "t1" 4, TInfo.field 0 "b" "t2" 8,
       TInfo.field 0 "c" "t3" 2] none).1.size = 8 := by
  constructor
  · intro lib L nm ms pad
    have key : ∀ (h : TInfo) (t : List TInfo),
        t.foldl (fun (a : Int) (e : TInfo) => max a e.size) h.size
          = specMaxSize ((h :: t).map TInfo.size) := by
      intro h t
      simp only [specMaxSize, List.map_cons, List.max?_cons', Option.getD_some,
        List.foldl_map]
    cases ms with
    | nil => cases nm <;> rfl
    | cons h t =>
      cases nm <;>
        (show t.foldl (fun (a : Int) (e : TInfo) => max a e.size) h.size + _ = _
         rw [key h t])
  · rfl

/-- C7: catalog lookup returns the stored node exactly when the name is
present and fails (with `KeyError`, the NotFound error) when absent. -/
theorem C7_get_contract : ∀ (lib : TypeLib) (k : String),
    (containsKey lib k = false → getItem lib k = none)
    ∧ (containsKey lib k = true → ∃ v, getItem lib k = some v ∧ (k, v) ∈ lib) := by
  intro lib k
  constructor
  · intro h
    have hall : ∀ e ∈ lib, ¬ ((e.1 == k) = true) := by
      simpa [containsKey] using h
    simp [getItem, List.find?_eq_none.mpr hall]
  · intro h
    have hex : ∃ e, e ∈ lib ∧ (e.1 == k) = true := by
      simpa [containsKey] using h
    obtain ⟨e, he, hk⟩ := hex
    have hsome : (lib.find? (fun e => e.1 == k)).isSome := by
      simp only [List.find?_isSome]
      exact ⟨e, he, hk⟩
    obtain ⟨r, hr⟩ := Option.isSome_iff_exists.mp hsome
    have hmem := List.mem_of_find?_eq_some hr
    have hpk : (r.1 == k) = true :=
      List.find?_some (p := fun e : String × TInfo => e.1 == k) hr
    have hk1 : r.1 = k := by simpa using hpk
    refine ⟨r.2, by simp [getItem, hr], ?_⟩
    have : (k, r.2) = r := by
      cases r with
      | mk a b => simp at hk1; simp [hk1]
    rw [this]
    exact hmem

/-- Witness for C7 at a concrete catalog: a present and an absent key. -/
theorem C7_witness :
    getItem [("x", TInfo.void)] "y" = none
    ∧ ∃ v, getItem [("x", TInfo.void)] "x" = some v
        ∧ ("x", v) ∈ ([("x", TInfo.void)] : TypeLib) :=
  ⟨(C7_get_contract [("x", TInfo.void)] "y").1 rfl,
   (C7_get_contract [("x", TInfo.void)] "x").2 rfl⟩

/-- C9: an unnamed Struct or Union computes its size and keeps its
layout/members but leaves the catalog untouched; a named one is inserted
under its name, and the computed size does not depend on the name. -/
theorem C9_unnamed_not_registered : ∀ (lib : TypeLib) (L : Nat)
    (layout ms : List TInfo) (pad : Option TInfo) (s : String),
    ((mkStruct lib L none layout).2 = lib)
  ∧ ((mkUnion lib L none ms pad).2 = lib)
  ∧ ((mkStruct lib L (some s) layout).2
      = setItem lib s (mkStruct lib L (some s) layout).1)
  ∧ ((mkUnion lib L (some s) ms pad).2
      = setItem lib s (mkUnion lib L (some s) ms pad).1)
  ∧ ((mkStruct lib L none layout).1.size = (mkStruct lib L (some s) layout).1.size)
  ∧ ((mkUnion lib L none ms pad).1.size = (mkUnion lib L (some s) ms pad).1.size)
  ∧ ((mkStruct lib L none layout).1.layoutOf = layout)
  ∧ ((mkUnion lib L none ms pad).1.layoutOf = ms) := by
  intro lib L layout ms pad s
  exact ⟨rfl, rfl, rfl, rfl, rfl, rfl, rfl, rfl⟩

/-- The struct member loop only appends to the accumulated layout. -/
theorem structLoopExtends (L : Nat)
    (recur : String → TypeLib → List String → Except AddErr (TypeLib × List String)) :
    ∀ (ms : List Member) (next : Nat) (acc : List TInfo) (lib : TypeLib)
      (wl : List String) (r : List TInfo × TypeLib × List String),
      structLoop L recur ms next acc lib wl = .ok r →
      ∃ suffix, r.1 = acc ++ suffix := by
  intro ms
  induction ms with
  | nil =>
    intro next acc lib wl r h
    injection h with h'
    exact ⟨[], by rw [← h']; simp⟩
  | cons m rest ih =>
    intro next acc lib wl r h
    rcases hrec : recur m.msig lib wl with e | lw
    · simp [structLoop, hrec] at h
    · obtain ⟨lib2, wl2⟩ := lw
      rcases hfld : mkField lib2 L m.mname m.msig with e | fld
      · simp [structLoop, hrec, hfld] at h
      · have h2 : structLoop L recur rest (m.moffset + m.mbits)
            ((if m.moffset ≠ next then
                acc ++ [TInfo.padding (((m.moffset : Int) - (next : Int)).fdiv 8)]
              else acc) ++ [fld]) lib2 wl2 = .ok r := by
          rw [structLoop] at h
          simp only [hrec, hfld] at h
          exact h
        obtain ⟨suffix, hs⟩ := ih _ _ _ _ _ h2
        by_cases hoff : m.moffset = next
        · exact ⟨[fld] ++ suffix, by simp [hs, hoff]⟩
        · refine ⟨[TInfo.padding (((m.moffset : Int) - (next : Int)).fdiv 8), fld]
            ++ suffix, ?_⟩
          simp [hs, hoff]

/-- When a member's bit offset is not the expected next offset, the loop
emits a Padding of the floored byte difference, immediately followed by
the member's Field. -/
theorem structLoop_gap (L : Nat)
    (recur : String → TypeLib → List String → Except AddErr (TypeLib × List String))
    (m : Member) (rest : List Member) (next : Nat) (acc : List TInfo)
    (lib : TypeLib) (wl : List String) (r : List TInfo × TypeLib × List String)
    (hoff : m.moffset ≠ next)
    (h : structLoop L recur (m :: rest) next acc lib wl = .ok r) :
    ∃ sz suffix,
      r.1 = acc ++ [TInfo.padding (((m.moffset : Int) - (next : Int)).fdiv 8),
        TInfo.field L m.mname m.msig sz] ++ suffix := by
  rcases hrec : recur m.msig lib wl with e | lw
  · simp [structLoop, hrec] at h
  · obtain ⟨lib2, wl2⟩ := lw
    rcases hget : getItem lib2 m.msig with _ | b
    · simp [structLoop, hrec, mkField, hget] at h
    · have h2 : structLoop L recur rest (m.moffset + m.mbits)
          ((acc ++ [TInfo.padding (((m.moffset : Int) - (next : Int)).fdiv 8)])
            ++ [TInfo.field L m.mname m.msig b.size]) lib2 wl2 = .ok r := by
        rw [structLoop] at h
        simp only [hrec, mkField, hget, hoff, if_true, ite_not, if_neg] at h
        simpa [hoff] using h
      obtain ⟨suffix, hs⟩ := structLoopExtends L recur _ _ _ _ _ _ h2
      exact ⟨b.size, suffix, by simp [hs]⟩

/-- C4: a gap between a member's byte offset and the expected next offset
produces a Padding entry sized to the gap right before the member's
Field; concretely, a struct with two 4-byte ints at byte offsets 0 and 8
normalizes to `[Field(int,4), Padding(4), Field(int,4)]` with size 12. -/
theorem C4_padding_insertion :
    (∀ (L : Nat)
      (recur : String → TypeLib → List String → Except AddErr (TypeLib × List String))
      (m : Member) (rest : List Member) (next : Nat) (acc : List TInfo)
      (lib : TypeLib) (wl : List String) (r : List TInfo × TypeLib × List String),
      m.moffset ≠ next →
      structLoop L recur (m :: rest) next acc lib wl = .ok r →
      ∃ sz suffix,
        r.1 = acc ++ [TInfo.padding (((m.moffset : Int) - (next : Int)).fdiv 8),
          TInfo.field L m.mname m.msig sz] ++ suffix)
  ∧ addRoot gapProvider 0 3 "S" [] =
      .ok ([("int", .typeInfo 0 (some "int") 4),
            ("S", .struct 0 (some "S")
              [.field 0 "x" "int" 4, .padding 4, .field 0 "y" "int" 4] 12)],
           ["int", "S"]) :=
  ⟨fun L recur m rest next acc lib wl r hoff h =>
    structLoop_gap L recur m rest next acc lib wl r hoff h, rfl⟩

/-- Witness for C4's general part at a concrete loop state: member `y` at
bit offset 64 against expected offset 32 over a catalog holding `int`. -/
theorem C4_witness :
    ∃ sz suffix,
      ([TInfo.padding 4, TInfo.field 0 "y" "int" 4] : List TInfo)
        = [] ++ [TInfo.padding (((64 : Int) - (32 : Int)).fdiv 8),
            TInfo.field 0 "y" "int" sz] ++ suffix :=
  C4_padding_insertion.1 0 (fun _ l w => .ok (l, w)) ⟨"y", 64, 32, "int"⟩ [] 32 []
    [("int", TInfo.typeInfo 0 (some "int") 4)] []
    ([TInfo.padding 4, TInfo.field 0 "y" "int" 4],
      [("int", TInfo.typeInfo 0 (some "int") 4)], [])
    (by decide) rfl

/-- C10: a member whose bit offset is strictly below the expected next
offset raises no error — the loop silently appends a Padding whose size,
the floored byte difference, is negative, and the struct's size sum
shrinks; concretely two 4-byte ints both at offset 0 normalize to
`[Field(int,4), Padding(-4), Field(int,4)]` with size 4. -/
theorem C10_negative_padding :
    (∀ (L : Nat)
      (recur : String → TypeLib → List String → Except AddErr (TypeLib × List String))
      (m : Member) (rest : List Member) (next : Nat) (acc : List TInfo)
      (lib : TypeLib) (wl : List String) (r : List TInfo × TypeLib × List String),
      m.moffset < next →
      structLoop L recur (m :: rest) next acc lib wl = .ok r →
      ∃ sz suffix,
        r.1 = acc ++ [TInfo.padding (((m.moffset : Int) - (next : Int)).fdiv 8),
          TInfo.field L m.mname m.msig sz] ++ suffix
        ∧ ((m.moffset : Int) - (next : Int)).fdiv 8 < 0)
  ∧ addRoot overlapProvider 0 3 "S" [] =
      .ok ([("int", .typeInfo 0 (some "int") 4),
            ("S", .struct 0 (some "S")
              [.field 0 "x" "int" 4, .padding (-4), .field 0 "y" "int" 4] 4)],
           ["int", "S"]) := by
  constructor
  · intro L recur m rest next acc lib wl r hlt h
    obtain ⟨sz, suffix, hs⟩ :=
      structLoop_gap L recur m rest next acc lib wl r (Nat.ne_of_lt hlt) h
    refine ⟨sz, suffix, hs, ?_⟩
    apply Int.fdiv_neg' ?_ (by decide)
    omega
  · rfl

/-- Witness for C10's general part: member `y` at bit offset 0 against
expected offset 32 over a catalog holding `int`. -/
theorem C10_witness :
    ∃ sz suffix,
      ([TInfo.padding (-4), TInfo.field 0 "y" "int" 4] : List TInfo)
        = [] ++ [TInfo.padding (((0 : Int) - (32 : Int)).fdiv 8),
            TInfo.field 0 "y" "int" sz] ++ suffix
      ∧ ((0 : Int) - (32 : Int)).fdiv 8 < 0 :=
  C10_negative_padding.1 0 (fun _ l w => .ok (l, w)) ⟨"y", 0, 32, "int"⟩ [] 32 []
    [("int", TInfo.typeInfo 0 (some "int") 4)] []
    ([TInfo.padding (-4), TInfo.field 0 "y" "int" 4],
      [("int", TInfo.typeInfo 0 (some "int") 4)], [])
    (by decide) rfl

/-- Elementwise soundness of layout comparison: a layout-level `==` that
returns `True` implies elementwise semantic agreement. -/
theorem beqList_sound :
    ∀ (xs ys : List TInfo),
      (∀ x ∈ xs, ∀ y, beq x y = some true → semEq x y = some true) →
      beqList xs ys = some true → semEqList xs ys = some true := by
  intro xs
  induction xs with
  | nil =>
    intro ys ih h
    cases ys with
    | nil => rfl
    | cons y ys => simp [beqList] at h
  | cons x xs ihx =>
    intro ys ih h
    cases ys with
    | nil => simp [beqList] at h
    | cons y ys =>
      rcases hxy : beq x y with _ | bv
      · rw [beqList, hxy] at h; exact absurd h (by simp)
      · rcases bv with _ | _
        · rw [beqList, hxy] at h; exact absurd h (by simp)
        · have hsem := ih x (by simp) y hxy
          have htail : beqList xs ys = some true := by
            rw [beqList, hxy] at h; exact h
          have := ihx ys (fun x hx y hy => ih x (by simp [hx]) y hy) htail
          rw [semEqList, hsem]
          exact this

/-- Soundness of the optional-padding comparison. -/
theorem beqOpt_sound :
    ∀ (p q : Option TInfo),
      (∀ x, p = some x → ∀ y, beq x y = some true → semEq x y = some true) →
      beqOpt p q = some true → semEqOpt p q = some true := by
  intro p q ih h
  cases p with
  | none =>
    cases q with
    | none => rfl
    | some y => simp [beqOpt] at h
  | some x =>
    cases q with
    | none => simp [beqOpt] at h
    | some y =>
      have := ih x rfl y (by simpa [beqOpt] using h)
      simpa [semEqOpt] using this

/-- Python `==` returning `True` on two nodes forces agreement of the
semantic fields and of the recorded catalogs. -/
theorem beq_true_sound :
    ∀ (a b : TInfo), beq a b = some true →
      semEq a b = some true ∧ a.libOf = b.libOf := by
  have H : ∀ (n : Nat) (a b : TInfo), sizeOf a ≤ n → beq a b = some true →
      semEq a b = some true ∧ a.libOf = b.libOf := by
    intro n
    induction n using Nat.strong_induction_on with
    | _ n ih =>
      intro a b hsz hbeq
      cases a with
      | typeInfo l1 n1 s1 =>
        clear ih hsz
        cases b <;> simp_all [beq, semEq, TInfo.libOf]
      | array l1 b1 c1 s1 =>
        clear ih hsz
        cases b <;> simp_all [beq, semEq, TInfo.libOf]
      | pointer l1 t1 =>
        clear ih hsz
        cases b <;> simp_all [beq, semEq, TInfo.libOf]
      | field l1 n1 t1 s1 =>
        clear ih hsz
        cases b <;> simp_all [beq, semEq, TInfo.libOf]
      | padding s1 =>
        clear ih hsz
        cases b <;> simp_all [beq, semEq, TInfo.libOf]
      | void =>
        clear ih hsz
        cases b <;> simp_all [beq, semEq, TInfo.libOf]
      | struct l1 n1 lay1 s1 =>
        cases b with
        | struct l2 n2 lay2 s2 =>
          rw [beq] at hbeq
          by_cases hl : (l1 == l2) = true
          · by_cases hn : (n1 == n2) = true
            · rw [if_pos hl, if_pos hn] at hbeq
              have hlist : semEqList lay1 lay2 = some true := by
                apply beqList_sound lay1 lay2 ?_ hbeq
                intro x hx y hxy
                have hx1 : sizeOf x < sizeOf lay1 := List.sizeOf_lt_of_mem hx
                have hx2 : sizeOf lay1 < sizeOf (TInfo.struct l1 n1 lay1 s1) := by
                  simp [TInfo.struct.sizeOf_spec]
                  omega
                exact (ih (sizeOf x) (by omega) x y (Nat.le_refl _) hxy).1
              constructor
              · rw [semEq, if_pos hn]; exact hlist
              · simp [TInfo.libOf]
                exact beq_iff_eq.mp hl
            · rw [if_pos hl, if_neg hn] at hbeq
              exact absurd hbeq (by simp)
          · rw [if_neg hl] at hbeq
            exact absurd hbeq (by simp)
        | typeInfo l2 n2 s2 => simp [beq] at hbeq
        | array l2 b2 c2 s2 => simp [beq] at hbeq
        | pointer l2 t2 => simp [beq] at hbeq
        | field l2 n2 t2 s2 => simp [beq] at hbeq
        | padding s2 => simp [beq] at hbeq
        | union l2 n2 ms2 p2 s2 => simp [beq] at hbeq
        | void => simp [beq] at hbeq
      | union l1 n1 ms1 p1 s1 =>
        cases b with
        | union l2 n2 ms2 p2 s2 =>
          rw [beq] at hbeq
          by_cases hl : (l1 == l2) = true
          · by_cases hn : (n1 == n2) = true
            · rw [if_pos hl, if_pos hn] at hbeq
              have hms : beqList ms1 ms2 = some true := by
                rcases hbl : beqList ms1 ms2 with _ | bv
                · rw [hbl] at hbeq; exact absurd hbeq (by simp)
                · rcases bv with _ | _
                  · rw [hbl] at hbeq; exact absurd hbeq (by simp)
                  · rfl
              rw [hms] at hbeq
              have hmemsize : ∀ x ∈ ms1, sizeOf x <
                  sizeOf (TInfo.union l1 n1 ms1 p1 s1) := by
                intro x hx
                have hx1 : sizeOf x < sizeOf ms1 := List.sizeOf_lt_of_mem hx
                have hx2 : sizeOf ms1 < sizeOf (TInfo.union l1 n1 ms1 p1 s1) := by
                  simp [TInfo.union.sizeOf_spec]
                  omega
                omega
              have hlist : semEqList ms1 ms2 = some true := by
                apply beqList_sound ms1 ms2 ?_ hms
                intro x hx y hxy
                exact (ih (sizeOf x) (by have := hmemsize x hx; omega)
                  x y (Nat.le_refl _) hxy).1
              have hpad : semEqOpt p1 p2 = some true := by
                apply beqOpt_sound p1 p2 ?_ hbeq
                intro x hx y hxy
                have hx1 : sizeOf x < sizeOf (TInfo.union l1 n1 ms1 p1 s1) := by
                  subst hx
                  simp [TInfo.union.sizeOf_spec, Option.some.sizeOf_spec]
                  omega
                exact (ih (sizeOf x) (by omega) x y (Nat.le_refl _) hxy).1
              constructor
              · rw [semEq, if_pos hn, hlist]
                exact hpad
              · simp [TInfo.libOf]
                exact beq_iff_eq.mp hl
            · rw [if_pos hl, if_neg hn] at hbeq
              exact absurd hbeq (by simp)
          · rw [if_neg hl] at hbeq
            exact absurd hbeq (by simp)
        | typeInfo l2 n2 s2 => simp [beq] at hbeq
        | array l2 b2 c2 s2 => simp [beq] at hbeq
        | pointer l2 t2 => simp [beq] at hbeq
        | field l2 n2 t2 s2 => simp [beq] at hbeq
        | padding s2 => simp [beq] at hbeq
        | struct l2 n2 lay2 s2 => simp [beq] at hbeq
        | void => simp [beq] at hbeq
  intro a b
  exact H (sizeOf a) a b (Nat.le_refl _)

/-- C8: node equality is scoped to the owning catalog.  Two nodes whose
semantic fields agree but whose recorded catalogs differ compare unequal,
and an equality that returns `True` forces both semantic-field agreement
and agreement of the recorded catalogs. -/
theorem C8_catalog_scoped_equality :
    (∀ (a b : TInfo) (la lb : Nat),
      semEq a b = some true → a.libOf = some la → b.libOf = some lb →
      la ≠ lb → beq a b = some false)
  ∧ (∀ a b : TInfo, beq a b = some true →
      semEq a b = some true ∧ a.libOf = b.libOf) := by
  constructor
  · intro a b la lb hsem ha hb hne
    cases a <;> cases b <;> simp_all [beq, semEq, TInfo.libOf]
  · exact beq_true_sound

/-- Witness for C8 at concrete nodes: identical primitives in catalogs 0
and 1 compare unequal; a pointer compared with itself is equal and forces
catalog agreement. -/
theorem C8_witness :
    beq (TInfo.typeInfo 0 (some "int") 4) (TInfo.typeInfo 1 (some "int") 4)
      = some false
    ∧ (semEq (TInfo.pointer 2 "t") (TInfo.pointer 2 "t") = some true
        ∧ (TInfo.pointer 2 "t").libOf = (TInfo.pointer 2 "t").libOf) :=
  ⟨C8_catalog_scoped_equality.1 (TInfo.typeInfo 0 (some "int") 4)
      (TInfo.typeInfo 1 (some "int") 4) 0 1 rfl rfl rfl (by decide),
   C8_catalog_scoped_equality.2 (TInfo.pointer 2 "t") (TInfo.pointer 2 "t") rfl⟩

/-- Unfolding `add` at a positive fuel value. -/
theorem add_succ (p : Provider) (L f : Nat) :
    add p L (f + 1) = addF p L (add p L f) := rfl

/-- A resolvable signature belongs to the provider's signature set. -/
theorem lookupShape_mem {p : Provider} {sig : String} {sh : Shape}
    (h : lookupShape p sig = some sh) : sig ∈ provSigs p := by
  unfold lookupShape at h
  rcases he : p.find? (fun e => e.1 == sig) with _ | e
  · rw [he] at h; exact Option.noConfusion h
  · have hmem := List.mem_of_find?_eq_some he
    have hpk : (e.1 == sig) = true :=
      List.find?_some (p := fun e : String × Shape => e.1 == sig) he
    have : e.1 = sig := by simpa using hpk
    subst this
    simp only [provSigs, List.mem_toFinset]
    exact List.mem_map_of_mem Prod.fst hmem

/-- Visiting a resolvable, unvisited signature strictly shrinks the
measure. -/
theorem missing_lt {p : Provider} {sig : String} {wl : List String}
    (hmem : sig ∈ provSigs p) (hnin : sig ∉ wl) :
    missing p (sig :: wl) < missing p wl := by
  apply Finset.card_lt_card
  rw [Finset.ssubset_iff_of_subset]
  · exact ⟨sig, by simp [hmem, hnin], by simp⟩
  · intro x hx
    simp only [Finset.mem_filter, List.mem_cons] at hx ⊢
    exact ⟨hx.1, fun hc => hx.2 (Or.inr hc)⟩

/-- Growing the worklist can only shrink the measure. -/
theorem missing_le_of_subset {p : Provider} {wl wl2 : List String}
    (h : wl ⊆ wl2) : missing p wl2 ≤ missing p wl := by
  apply Finset.card_le_card
  intro x hx
  simp only [Finset.mem_filter] at hx ⊢
  exact ⟨hx.1, fun hc => hx.2 (h hc)⟩

/-- The struct member loop only grows the worklist (given that the
recursive normalizer does). -/
theorem structLoop_mono (L : Nat)
    (recur : String → TypeLib → List String → Except AddErr (TypeLib × List String))
    (hrec : ∀ s lib wl lib2 wl2, recur s lib wl = .ok (lib2, wl2) → wl ⊆ wl2) :
    ∀ (ms : List Member) (next : Nat) (acc : List TInfo) (lib : TypeLib)
      (wl : List String) (r : List TInfo × TypeLib × List String),
      structLoop L recur ms next acc lib wl = .ok r → wl ⊆ r.2.2 := by
  intro ms
  induction ms with
  | nil =>
    intro next acc lib wl r h
    injection h with h'
    rw [← h']
    exact fun a ha => ha
  | cons m rest ih =>
    intro next acc lib wl r h
    rcases hrec0 : recur m.msig lib wl with e | lw
    · simp [structLoop, hrec0] at h
    · obtain ⟨lib2, wl2⟩ := lw
      rcases hfld : mkField lib2 L m.mname m.msig with e | fld
      · simp [structLoop, hrec0, hfld] at h
      · have h2 : structLoop L recur rest (m.moffset + m.mbits)
            ((if m.moffset ≠ next then
                acc ++ [TInfo.padding (((m.moffset : Int) - (next : Int)).fdiv 8)]
              else acc) ++ [fld]) lib2 wl2 = .ok r := by
          rw [structLoop] at h
          simp only [hrec0, hfld] at h
          exact h
        exact (hrec _ _ _ _ _ hrec0).trans (ih _ _ _ _ _ h2)

/-- The union member loop only grows the worklist. -/
theorem unionLoop_mono (L : Nat)
    (recur : String → TypeLib → List String → Except AddErr (TypeLib × List String))
    (hrec : ∀ s lib wl lib2 wl2, recur s lib wl = .ok (lib2, wl2) → wl ⊆ wl2) :
    ∀ (ms : List (String × String)) (acc : List TInfo) (lib : TypeLib)
      (wl : List String) (r : List TInfo × TypeLib × List String),
      unionLoop L recur ms acc lib wl = .ok r → wl ⊆ r.2.2 := by
  intro ms
  induction ms with
  | nil =>
    intro acc lib wl r h
    injection h with h'
    rw [← h']
    exact fun a ha => ha
  | cons m rest ih =>
    intro acc lib wl r h
    obtain ⟨nm, sig⟩ := m
    rcases hrec0 : recur sig lib wl with e | lw
    · simp [unionLoop, hrec0] at h
    · obtain ⟨lib2, wl2⟩ := lw
      rcases hfld : mkField lib2 L nm sig with e | fld
      · simp [unionLoop, hrec0, hfld] at h
      · have h2 : unionLoop L recur rest (acc ++ [fld]) lib2 wl2 = .ok r := by
          rw [unionLoop] at h
          simp only [hrec0, hfld] at h
          exact h
        exact (hrec _ _ _ _ _ hrec0).trans (ih _ _ _ _ h2)

/-- Lemma: `add` only grows the worklist. -/
theorem add_mono (p : Provider) (L : Nat) :
    ∀ (f : Nat) (sig : String) (lib : TypeLib) (wl : List String)
      (lib2 : TypeLib) (wl2 : List String),
      add p L f sig lib wl = .ok (lib2, wl2) → wl ⊆ wl2 := by
  intro f
  induction f with
  | zero =>
    intro sig lib wl lib2 wl2 h
    exact Except.noConfusion h
  | succ f ih =>
    intro sig lib wl lib2 wl2 h
    rw [add_succ] at h
    rw [addF] at h
    by_cases hin : sig ∈ wl
    · rw [if_pos hin] at h
      injection h with h2
      cases h2
      exact fun a ha => ha
    · rw [if_neg hin] at h
      have hsub : wl ⊆ sig :: wl := fun a ha => List.mem_cons_of_mem sig ha
      rcases hlk : lookupShape p sig with _ | sh
      · rw [hlk] at h
        exact Except.noConfusion h
      · rw [hlk] at h
        cases sh with
        | voidS =>
          injection h with h2
          cases h2
          exact fun a ha => ha
        | ptrS pointee =>
          simp only [mkPointer] at h
          exact hsub.trans (ih _ _ _ _ _ h)
        | arrS elem n =>
          rcases hrec : add p L f elem lib (sig :: wl) with e | lw
          · simp only [hrec] at h
            exact Except.noConfusion h
          · obtain ⟨libA, wlA⟩ := lw
            simp only [hrec] at h
            rcases harr : mkArray libA L elem n with e | pr
            · simp only [harr] at h
              exact Except.noConfusion h
            · obtain ⟨nd, libB⟩ := pr
              simp only [harr] at h
              injection h with h2
              cases h2
              exact hsub.trans (ih _ _ _ _ _ hrec)
        | structS ms =>
          rcases hsl : structLoop L (add p L f) ms 0 [] lib (sig :: wl) with e | tr
          · simp only [hsl] at h
            exact Except.noConfusion h
          · obtain ⟨lay, libA, wlA⟩ := tr
            simp only [hsl] at h
            injection h with h2
            cases h2
            exact hsub.trans (structLoop_mono L (add p L f) (ih) _ _ _ _ _ _ hsl)
        | unionS ms =>
          rcases hsl : unionLoop L (add p L f) ms [] lib (sig :: wl) with e | tr
          · simp only [hsl] at h
            exact Except.noConfusion h
          · obtain ⟨mems, libA, wlA⟩ := tr
            simp only [hsl] at h
            injection h with h2
            cases h2
            exact hsub.trans (unionLoop_mono L (add p L f) (ih) _ _ _ _ _ hsl)
        | primS s =>
          simp only [mkTypeInfo] at h
          injection h with h2
          cases h2
          exact hsub

/-- Two recursive normalizers that agree on all worklists extending `W`
drive the struct member loop to the same result. -/
theorem structLoop_congr (L : Nat)
    (r1 r2 : String → TypeLib → List String → Except AddErr (TypeLib × List String))
    (hmono : ∀ s lib wl lib2 wl2, r1 s lib wl = .ok (lib2, wl2) → wl ⊆ wl2)
    (W : List String)
    (heq : ∀ s lib wl, W ⊆ wl → r1 s lib wl = r2 s lib wl) :
    ∀ (ms : List Member) (next : Nat) (acc : List TInfo) (lib : TypeLib)
      (wl : List String), W ⊆ wl →
      structLoop L r1 ms next acc lib wl = structLoop L r2 ms next acc lib wl := by
  intro ms
  induction ms with
  | nil => intro next acc lib wl hW; rfl
  | cons m rest ih =>
    intro next acc lib wl hW
    rw [structLoop, structLoop, ← heq m.msig lib wl hW]
    rcases h1 : r1 m.msig lib wl with e | lw
    · simp only [h1]
    · obtain ⟨lib2, wl2⟩ := lw
      simp only [h1]
      rcases hfld : mkField lib2 L m.mname m.msig with e | fld
      · simp only [hfld]
      · simp only [hfld]
        exact ih _ _ _ _ (hW.trans (hmono _ _ _ _ _ h1))

/-- Two recursive normalizers that agree on all worklists extending `W`
drive the union member loop to the same result. -/
theorem unionLoop_congr (L : Nat)
    (r1 r2 : String → TypeLib → List String → Except AddErr (TypeLib × List String))
    (hmono : ∀ s lib wl lib2 wl2, r1 s lib wl = .ok (lib2, wl2) → wl ⊆ wl2)
    (W : List String)
    (heq : ∀ s lib wl, W ⊆ wl → r1 s lib wl = r2 s lib wl) :
    ∀ (ms : List (String × String)) (acc : List TInfo) (lib : TypeLib)
      (wl : List String), W ⊆ wl →
      unionLoop L r1 ms acc lib wl = unionLoop L r2 ms acc lib wl := by
  intro ms
  induction ms with
  | nil => intro acc lib wl hW; rfl
  | cons m rest ih =>
    intro acc lib wl hW
    obtain ⟨nm, sig⟩ := m
    rw [unionLoop, unionLoop, ← heq sig lib wl hW]
    rcases h1 : r1 sig lib wl with e | lw
    · simp only [h1]
    · obtain ⟨lib2, wl2⟩ := lw
      simp only [h1]
      rcases hfld : mkField lib2 L nm sig with e | fld
      · simp only [hfld]
      · simp only [hfld]
        exact ih _ _ _ (hW.trans (hmono _ _ _ _ _ h1))

/-- Fuel-independence of `add`: any two fuel values strictly above the
number of unvisited provider signatures give the same result. -/
theorem add_stable (p : Provider) (L : Nat) :
    ∀ (n f g : Nat) (sig : String) (lib : TypeLib) (wl : List String),
      missing p wl ≤ n → n < f → n < g →
      add p L f sig lib wl = add p L g sig lib wl := by
  intro n
  induction n using Nat.strong_induction_on with
  | _ n ih =>
    intro f g sig lib wl hm hf hg
    obtain ⟨f', rfl⟩ : ∃ x, f = x + 1 := ⟨f - 1, by omega⟩
    obtain ⟨g', rfl⟩ : ∃ x, g = x + 1 := ⟨g - 1, by omega⟩
    rw [add_succ, add_succ, addF, addF]
    by_cases hin : sig ∈ wl
    · rw [if_pos hin, if_pos hin]
    · rw [if_neg hin, if_neg hin]
      rcases hlk : lookupShape p sig with _ | sh
      · simp only [hlk]
      · simp only [hlk]
        have hsigmem : sig ∈ provSigs p := lookupShape_mem hlk
        have hmiss : missing p (sig :: wl) < missing p wl := missing_lt hsigmem hin
        have hreq : ∀ (s : String) (lib0 : TypeLib) (wl0 : List String),
            (sig :: wl) ⊆ wl0 → add p L f' s lib0 wl0 = add p L g' s lib0 wl0 := by
          intro s lib0 wl0 hsub
          have h0 : missing p wl0 ≤ missing p (sig :: wl) :=
            missing_le_of_subset hsub
          exact ih (missing p wl0) (by omega) f' g' s lib0 wl0 (Nat.le_refl _)
            (by omega) (by omega)
        cases sh with
        | voidS => rfl
        | ptrS pointee =>
          simp only [mkPointer]
          exact hreq pointee _ _ (fun a ha => ha)
        | arrS elem n0 =>
          have he := hreq elem lib (sig :: wl) (fun a ha => ha)
          simp only [he]
        | structS ms =>
          have hc := structLoop_congr L (add p L f') (add p L g') (add_mono p L f')
            (sig :: wl) hreq ms 0 [] lib (sig :: wl) (fun a ha => ha)
          simp only [hc]
        | unionS ms =>
          have hc := unionLoop_congr L (add p L f') (add p L g') (add_mono p L f')
            (sig :: wl) hreq ms [] lib (sig :: wl) (fun a ha => ha)
          simp only [hc]
        | primS s => rfl

/-- The struct member loop preserves worklist distinctness. -/
theorem structLoop_nodup (L : Nat)
    (recur : String → TypeLib → List String → Except AddErr (TypeLib × List String))
    (hrec : ∀ s lib wl lib2 wl2, recur s lib wl = .ok (lib2, wl2) →
      wl.Nodup → wl2.Nodup) :
    ∀ (ms : List Member) (next : Nat) (acc : List TInfo) (lib : TypeLib)
      (wl : List String) (r : List TInfo × TypeLib × List String),
      structLoop L recur ms next acc lib wl = .ok r → wl.Nodup → r.2.2.Nodup := by
  intro ms
  induction ms with
  | nil =>
    intro next acc lib wl r h hnd
    injection h with h'
    rw [← h']
    exact hnd
  | cons m rest ih =>
    intro next acc lib wl r h hnd
    rcases hrec0 : recur m.msig lib wl with e | lw
    · simp [structLoop, hrec0] at h
    · obtain ⟨lib2, wl2⟩ := lw
      rcases hfld : mkField lib2 L m.mname m.msig with e | fld
      · simp [structLoop, hrec0, hfld] at h
      · have h2 : structLoop L recur rest (m.moffset + m.mbits)
            ((if m.moffset ≠ next then
                acc ++ [TInfo.padding (((m.moffset : Int) - (next : Int)).fdiv 8)]
              else acc) ++ [fld]) lib2 wl2 = .ok r := by
          rw [structLoop] at h
          simp only [hrec0, hfld] at h
          exact h
        exact ih _ _ _ _ _ h2 (hrec _ _ _ _ _ hrec0 hnd)

/-- The union member loop preserves worklist distinctness. -/
theorem unionLoop_nodup (L : Nat)
    (recur : String → TypeLib → List String → Except AddErr (TypeLib × List String))
    (hrec : ∀ s lib wl lib2 wl2, recur s lib wl = .ok (lib2, wl2) →
      wl.Nodup → wl2.Nodup) :
    ∀ (ms : List (String × String)) (acc : List TInfo) (lib : TypeLib)
      (wl : List String) (r : List TInfo × TypeLib × List String),
      unionLoop L recur ms acc lib wl = .ok r → wl.Nodup → r.2.2.Nodup := by
  intro ms
  induction ms with
  | nil =>
    intro acc lib wl r h hnd
    injection h with h'
    rw [← h']
    exact hnd
  | cons m rest ih =>
    intro acc lib wl r h hnd
    obtain ⟨nm, sig⟩ := m
    rcases hrec0 : recur sig lib wl with e | lw
    · simp [unionLoop, hrec0] at h
    · obtain ⟨lib2, wl2⟩ := lw
      rcases hfld : mkField lib2 L nm sig with e | fld
      · simp [unionLoop, hrec0, hfld] at h
      · have h2 : unionLoop L recur rest (acc ++ [fld]) lib2 wl2 = .ok r := by
          rw [unionLoop] at h
          simp only [hrec0, hfld] at h
          exact h
        exact ih _ _ _ _ h2 (hrec _ _ _ _ _ hrec0 hnd)

/-- Lemma: `add` never records a signature twice: a distinct worklist stays
distinct, because a signature is inserted only after the membership
guard has ruled it out. -/
theorem add_nodup (p : Provider) (L : Nat) :
    ∀ (f : Nat) (sig : String) (lib : TypeLib) (wl : List String)
      (lib2 : TypeLib) (wl2 : List String),
      add p L f sig lib wl = .ok (lib2, wl2) → wl.Nodup → wl2.Nodup := by
  intro f
  induction f with
  | zero =>
    intro sig lib wl lib2 wl2 h
    exact Except.noConfusion h
  | succ f ih =>
    intro sig lib wl lib2 wl2 h hnd
    rw [add_succ] at h
    rw [addF] at h
    by_cases hin : sig ∈ wl
    · rw [if_pos hin] at h
      injection h with h2
      cases h2
      exact hnd
    · rw [if_neg hin] at h
      have hnd2 : (sig :: wl).Nodup := List.nodup_cons.mpr ⟨hin, hnd⟩
      rcases hlk : lookupShape p sig with _ | sh
      · rw [hlk] at h
        exact Except.noConfusion h
      · rw [hlk] at h
        cases sh with
        | voidS =>
          injection h with h2
          cases h2
          exact hnd
        | ptrS pointee =>
          simp only [mkPointer] at h
          exact ih _ _ _ _ _ h hnd2
        | arrS elem n =>
          rcases hrec : add p L f elem lib (sig :: wl) with e | lw
          · simp only [hrec] at h
            exact Except.noConfusion h
          · obtain ⟨libA, wlA⟩ := lw
            simp only [hrec] at h
            rcases harr : mkArray libA L elem n with e | pr
            · simp only [harr] at h
              exact Except.noConfusion h
            · obtain ⟨nd, libB⟩ := pr
              simp only [harr] at h
              injection h with h2
              cases h2
              exact ih _ _ _ _ _ hrec hnd2
        | structS ms =>
          rcases hsl : structLoop L (add p L f) ms 0 [] lib (sig :: wl) with e | tr
          · simp only [hsl] at h
            exact Except.noConfusion h
          · obtain ⟨lay, libA, wlA⟩ := tr
            simp only [hsl] at h
            injection h with h2
            cases h2
            exact structLoop_nodup L (add p L f) (ih) _ _ _ _ _ _ hsl hnd2
        | unionS ms =>
          rcases hsl : unionLoop L (add p L f) ms [] lib (sig :: wl) with e | tr
          · simp only [hsl] at h
            exact Except.noConfusion h
          · obtain ⟨mems, libA, wlA⟩ := tr
            simp only [hsl] at h
            injection h with h2
            cases h2
            exact unionLoop_nodup L (add p L f) (ih) _ _ _ _ _ hsl hnd2
        | primS s =>
          simp only [mkTypeInfo] at h
          injection h with h2
          cases h2
          exact hnd2

/-- With enough fuel the struct member loop never reports fuel
exhaustion (given that the recursive normalizer does not). -/
theorem structLoop_no_fuel (L : Nat)
    (recur : String → TypeLib → List String → Except AddErr (TypeLib × List String))
    (W : List String)
    (hrec : ∀ s lib wl, W ⊆ wl → recur s lib wl ≠ .error .outOfFuel)
    (hmono : ∀ s lib wl lib2 wl2, recur s lib wl = .ok (lib2, wl2) → wl ⊆ wl2) :
    ∀ (ms : List Member) (next : Nat) (acc : List TInfo) (lib : TypeLib)
      (wl : List String), W ⊆ wl →
      structLoop L recur ms next acc lib wl ≠ .error .outOfFuel := by
  intro ms
  induction ms with
  | nil =>
    intro next acc lib wl hW h
    exact Except.noConfusion h
  | cons m rest ih =>
    intro next acc lib wl hW h
    rcases hrec0 : recur m.msig lib wl with e | lw
    · rw [structLoop] at h
      simp only [hrec0] at h
      injection h with h2
      exact hrec m.msig lib wl hW (h2 ▸ hrec0)
    · obtain ⟨lib2, wl2⟩ := lw
      rcases hfld : mkField lib2 L m.mname m.msig with e | fld
      · rw [structLoop] at h
        simp only [hrec0, hfld] at h
        rcases hget : getItem lib2 m.msig with _ | b
        · rw [mkField, hget] at hfld
          injection hfld with h3
          rw [← h3] at h
          injection h with h4
          exact AddErr.noConfusion h4
        · rw [mkField, hget] at hfld
          exact Except.noConfusion hfld
      · rw [structLoop] at h
        simp only [hrec0, hfld] at h
        exact ih _ _ _ _ (hW.trans (hmono _ _ _ _ _ hrec0)) h

/-- With enough fuel the union member loop never reports fuel
exhaustion. -/
theorem unionLoop_no_fuel (L : Nat)
    (recur : String → TypeLib → List String → Except AddErr (TypeLib × List String))
    (W : List String)
    (hrec : ∀ s lib wl, W ⊆ wl → recur s lib wl ≠ .error .outOfFuel)
    (hmono : ∀ s lib wl lib2 wl2, recur s lib wl = .ok (lib2, wl2) → wl ⊆ wl2) :
    ∀ (ms : List (String × String)) (acc : List TInfo) (lib : TypeLib)
      (wl : List String), W ⊆ wl →
      unionLoop L recur ms acc lib wl ≠ .error .outOfFuel := by
  intro ms
  induction ms with
  | nil =>
    intro acc lib wl hW h
    exact Except.noConfusion h
  | cons m rest ih =>
    intro acc lib wl hW h
    obtain ⟨nm, sig⟩ := m
    rcases hrec0 : recur sig lib wl with e | lw
    · rw [unionLoop] at h
      simp only [hrec0] at h
      injection h with h2
      exact hrec sig lib wl hW (h2 ▸ hrec0)
    · obtain ⟨lib2, wl2⟩ := lw
      rcases hfld : mkField lib2 L nm sig with e | fld
      · rw [unionLoop] at h
        simp only [hrec0, hfld] at h
        rcases hget : getItem lib2 sig with _ | b
        · rw [mkField, hget] at hfld
          injection hfld with h3
          rw [← h3] at h
          injection h with h4
          exact AddErr.noConfusion h4
        · rw [mkField, hget] at hfld
          exact Except.noConfusion hfld
      · rw [unionLoop] at h
        simp only [hrec0, hfld] at h
        exact ih _ _ _ (hW.trans (hmono _ _ _ _ _ hrec0)) h

/-- With fuel strictly above the number of unvisited provider
signatures, `add` never reports fuel exhaustion. -/
theorem add_no_fuel (p : Provider) (L : Nat) :
    ∀ (n f : Nat) (sig : String) (lib : TypeLib) (wl : List String),
      missing p wl ≤ n → n < f →
      add p L f sig lib wl ≠ .error .outOfFuel := by
  intro n
  induction n using Nat.strong_induction_on with
  | _ n ih =>
    intro f sig lib wl hm hf h
    obtain ⟨f', rfl⟩ : ∃ x, f = x + 1 := ⟨f - 1, by omega⟩
    rw [add_succ, addF] at h
    by_cases hin : sig ∈ wl
    · rw [if_pos hin] at h
      exact Except.noConfusion h
    · rw [if_neg hin] at h
      rcases hlk : lookupShape p sig with _ | sh
      · rw [hlk] at h
        injection h with h2
        exact AddErr.noConfusion h2
      · rw [hlk] at h
        have hsigmem : sig ∈ provSigs p := lookupShape_mem hlk
        have hmiss : missing p (sig :: wl) < missing p wl := missing_lt hsigmem hin
        have hrec : ∀ (s : String) (lib0 : TypeLib) (wl0 : List String),
            (sig :: wl) ⊆ wl0 →
            add p L f' s lib0 wl0 ≠ .error .outOfFuel := by
          intro s lib0 wl0 hsub
          have h0 : missing p wl0 ≤ missing p (sig :: wl) :=
            missing_le_of_subset hsub
          exact ih (missing p wl0) (by omega) f' s lib0 wl0 (Nat.le_refl _)
            (by omega)
        cases sh with
        | voidS => exact Except.noConfusion h
        | ptrS pointee =>
          simp only [mkPointer] at h
          exact hrec pointee _ _ (fun a ha => ha) h
        | arrS elem n0 =>
          rcases hra : add p L f' elem lib (sig :: wl) with e | lw
          · simp only [hra] at h
            injection h with h2
            exact hrec elem lib (sig :: wl) (fun a ha => ha) (h2 ▸ hra)
          · obtain ⟨libA, wlA⟩ := lw
            simp only [hra] at h
            rcases harr : mkArray libA L elem n0 with e | pr
            · simp only [harr] at h
              rcases hget : getItem libA elem with _ | b
              · rw [mkArray, hget] at harr
                injection harr with h3
                rw [← h3] at h
                injection h with h4
                exact AddErr.noConfusion h4
              · rw [mkArray, hget] at harr
                exact Except.noConfusion harr
            · obtain ⟨nd, libB⟩ := pr
              simp only [harr] at h
              exact Except.noConfusion h
        | structS ms =>
          rcases hsl : structLoop L (add p L f') ms 0 [] lib (sig :: wl) with e | tr
          · simp only [hsl] at h
            injection h with h2
            exact structLoop_no_fuel L (add p L f') (sig :: wl) hrec
              (add_mono p L f') ms 0 [] lib (sig :: wl) (fun a ha => ha)
              (h2 ▸ hsl)
          · obtain ⟨lay, libA, wlA⟩ := tr
            simp only [hsl] at h
            exact Except.noConfusion h
        | unionS ms =>
          rcases hsl : unionLoop L (add p L f') ms [] lib (sig :: wl) with e | tr
          · simp only [hsl] at h
            injection h with h2
            exact unionLoop_no_fuel L (add p L f') (sig :: wl) hrec
              (add_mono p L f') ms [] lib (sig :: wl) (fun a ha => ha)
              (h2 ▸ hsl)
          · obtain ⟨mems, libA, wlA⟩ := tr
            simp only [hsl] at h
            exact Except.noConfusion h
        | primS s =>
          simp only [mkTypeInfo] at h
          exact Except.noConfusion h

/-- C3: normalization terminates on every finite provider graph — with
fuel strictly above the number of unvisited provider signatures the
result is fuel-independent and fuel exhaustion never occurs — and each
signature is visited at most once (the visited list stays duplicate-free);
in particular a struct containing a pointer to itself normalizes, with
the Pointer registered before the pointee is re-entered, to exactly one
Pointer entry and one Struct entry. -/
theorem C3_cycle_termination :
    (∀ (p : Provider) (L : Nat) (sig : String) (lib : TypeLib)
      (wl : List String) (f g : Nat),
      missing p wl < f → missing p wl < g →
      add p L f sig lib wl = add p L g sig lib wl)
  ∧ (∀ (p : Provider) (L f : Nat) (sig : String) (lib : TypeLib)
      (wl : List String),
      missing p wl < f → add p L f sig lib wl ≠ .error .outOfFuel)
  ∧ (∀ (p : Provider) (L f : Nat) (sig : String) (lib lib2 : TypeLib)
      (wl wl2 : List String),
      add p L f sig lib wl = .ok (lib2, wl2) → wl.Nodup → wl2.Nodup)
  ∧ addRoot selfPtrProvider 0 3 "S" [] =
      .ok ([("S *", .pointer 0 "S"),
            ("S", .struct 0 (some "S") [.field 0 "next" "S *" 8] 8)],
           ["S *", "S"]) :=
  ⟨fun p L sig lib wl f g hf hg =>
      add_stable p L (missing p wl) f g sig lib wl (Nat.le_refl _) hf hg,
   fun p L f sig lib wl hf =>
      add_no_fuel p L (missing p wl) f sig lib wl (Nat.le_refl _) hf,
   fun p L f sig lib lib2 wl wl2 h hnd =>
      add_nodup p L f sig lib wl lib2 wl2 h hnd,
   rfl⟩

/-- Witness for C3 on the self-pointer provider: fuel 3 and fuel 4 agree,
fuel 3 does not exhaust, and the visited list stays duplicate-free. -/
theorem C3_witness :
    add selfPtrProvider 0 3 "S" [] [] = add selfPtrProvider 0 4 "S" [] []
    ∧ add selfPtrProvider 0 3 "S" [] [] ≠ .error .outOfFuel
    ∧ (["S *", "S"] : List String).Nodup :=
  ⟨C3_cycle_termination.1 selfPtrProvider 0 "S" [] [] 3 4 (by decide) (by decide),
   C3_cycle_termination.2.1 selfPtrProvider 0 3 "S" [] [] (by decide),
   C3_cycle_termination.2.2.1 selfPtrProvider 0 3 "S"
     [] [("S *", .pointer 0 "S"),
         ("S", .struct 0 (some "S") [.field 0 "next" "S *" 8] 8)]
     [] ["S *", "S"] rfl (by decide)⟩

end DireTypeInfo
